import Mathlib

/-
Verification development for the weather-notification bot (src/bot.py).

The embedding models the program's data and control flow over plain Lean
types: message texts and dedup keys are lists of Unicode codepoints
(List Nat), times and dates are structures of naturals, dictionaries are
association lists. src/bot.py is stored in a doubly-encoded form, so the
codepoint constants below are the exact codepoint sequences the Python
literals denote in that file; the routing and comparison logic only needs
them to be the same sequences the program compares against.
-/

namespace Bot

/-- A trigger time: Python's `datetime.time(hour, minute)` with seconds 0. -/
structure TimeHM where
  hour : Nat
  minute : Nat
deriving DecidableEq, Repr

/-- A calendar date: Python's `datetime.date`. -/
structure Date where
  year : Nat
  month : Nat
  day : Nat
deriving DecidableEq, Repr

/-- `UserData` from src/bot.py (coordinates kept abstract as scaled integers;
the UTC-only source variant has no timezone field). -/
structure UserData where
  user_id : Nat
  lat : Option Int := none
  lon : Option Int := none
  has_location : Bool := false
  schedules : List TimeHM := []
deriving DecidableEq, Repr

/-- `DataStorage` from src/bot.py: the user dict and the dedup tracker
`sent_notifications` (a dict from key strings to True, modelled as the list
of present keys).  The `weather_cache` dict it also declares is never read
or written anywhere under src/, so it is not part of the embedded state. -/
structure DataStorage where
  users : List (Nat × UserData)
  sent_notifications : List (List Nat)
deriving DecidableEq, Repr

/-- Association-list lookup, the embedding of Python dict access. -/
def alookup {β : Type} : List (Nat × β) → Nat → Option β
  | [], _ => none
  | (i, v) :: rest, k => if i = k then some v else alookup rest k

/-- Replace the value stored under a key (in-place mutation of the user
object held in the dict). -/
def aupdate {β : Type} (l : List (Nat × β)) (k : Nat) (v : β) : List (Nat × β) :=
  l.map (fun e => if e.1 = k then (k, v) else e)

/-- `DataStorage.get_user`: return the profile, creating a default one if
absent (the only mutation on this path). -/
def get_user (st : DataStorage) (uid : Nat) : DataStorage × UserData :=
  match alookup st.users uid with
  | some u => (st, u)
  | none =>
    let u : UserData := { user_id := uid }
    ({ st with users := st.users ++ [(uid, u)] }, u)

/-- Comparison order of Python `datetime.time` values with seconds zero:
lexicographic on (hour, minute). -/
def timeLE (a b : TimeHM) : Prop :=
  a.hour < b.hour ∨ (a.hour = b.hour ∧ a.minute ≤ b.minute)

instance : DecidableRel timeLE := fun a b => by
  unfold timeLE; exact inferInstance

instance : IsTotal TimeHM timeLE := ⟨by intro a b; unfold timeLE; omega⟩

instance : IsTrans TimeHM timeLE := ⟨by intro a b c; unfold timeLE; omega⟩

/-- `list.sort()` on a Python list of times: sort ascending. -/
def sortTimes (l : List TimeHM) : List TimeHM := List.insertionSort timeLE l

/-- `DataStorage.add_schedule`: False and no mutation when the time is
already present, otherwise append, sort, True. -/
def add_schedule (st : DataStorage) (uid : Nat) (t : TimeHM) : DataStorage × Bool :=
  let r := get_user st uid
  if t ∈ r.2.schedules then (r.1, false)
  else
    let u := { r.2 with schedules := sortTimes (r.2.schedules ++ [t]) }
    ({ r.1 with users := aupdate r.1.users uid u }, true)

/-! ### Rendering of dedup keys

The scheduler builds the notification key as the f-string of user id,
current date and schedule time: decimal user id, underscore, YYYY-MM-DD,
underscore, HH:MM:SS.  Keys are modelled
as lists of codepoints (45 is `-`, 58 is `:`, 95 is `_`, 48..57 the digits). -/

/-- Two-digit zero-padded decimal rendering. -/
def two (n : Nat) : List Nat := [48 + n / 10, 48 + n % 10]

/-- Four-digit zero-padded decimal rendering (the year of an ISO date). -/
def four (n : Nat) : List Nat := two (n / 100) ++ two (n % 100)

/-- `str(date)`: ISO `YYYY-MM-DD`. -/
def dateCodes (d : Date) : List Nat :=
  four d.year ++ 45 :: (two d.month ++ 45 :: two d.day)

/-- `str(time)`: `HH:MM:SS` with seconds always zero. -/
def timeCodes (t : TimeHM) : List Nat :=
  two t.hour ++ 58 :: (two t.minute ++ 58 :: two 0)

/-- Little-endian decimal digit values of `n`, with enough fuel. -/
def natCodesAux : Nat → Nat → List Nat
  | 0, _ => []
  | _ + 1, 0 => []
  | fuel + 1, n + 1 => ((n + 1) % 10) :: natCodesAux fuel ((n + 1) / 10)

/-- `str(user_id)`: decimal digits of a natural number. -/
def natCodes (n : Nat) : List Nat :=
  if n = 0 then [48] else ((natCodesAux n n).reverse.map (fun d => 48 + d))

/-- The dedup key: user id, underscore, date, underscore, time. -/
def keyCodes (uid : Nat) (d : Date) (t : TimeHM) : List Nat :=
  natCodes uid ++ 95 :: (dateCodes d ++ 95 :: timeCodes t)

/-- Value of a little-endian digit list, for decoding `natCodesAux`. -/
def natVal : List Nat → Nat
  | [] => 0
  | d :: ds => d + 10 * natVal ds

/-- Dates whose fields fit their zero-padded rendering widths. -/
def wfDate (d : Date) : Prop := d.year < 10000 ∧ d.month < 100 ∧ d.day < 100

/-- Times whose fields fit their zero-padded rendering widths. -/
def wfTime (t : TimeHM) : Prop := t.hour < 100 ∧ t.minute < 100

instance (d : Date) : Decidable (wfDate d) := by unfold wfDate; exact inferInstance

instance (t : TimeHM) : Decidable (wfTime t) := by unfold wfTime; exact inferInstance

/-- Whether `w` is a leading segment of `l` (one position of Python's `in`). -/
def isPrefOf : List Nat → List Nat → Bool
  | [], _ => true
  | _ :: _, [] => false
  | a :: as, b :: bs => a == b && isPrefOf as bs

/-- Python's substring operator `w in l`. -/
def hasSub (w : List Nat) : List Nat → Bool
  | [] => w.isEmpty
  | c :: rest => isPrefOf w (c :: rest) || hasSub w rest

/-- `NotificationService._cleanup_old_notifications`: keep exactly the keys
that contain `str(current_date)` as a substring (the code deletes every key
with `current_date_str not in key`). -/
def cleanup (cur : Date) (keys : List (List Nat)) : List (List Nat) :=
  keys.filter (fun k => hasSub (dateCodes cur) k)

/-! ### The schedule-setup dialog

The Python conversation has a single state `SETTING_TIME`; the conceptual
positions (range selection, time selection, continue prompt) are reached by
text routing: messages matching the six clock-face characters go to
`handle_time_range`, messages starting with the check/cross characters go to
`handle_continue_choice`, and every other text goes to
`save_notification_time`.  Replies are abstracted to tags; their wording is
out of scope. -/

/-- Reply messages, abstracted to tags. -/
inductive Msg where
  | needLocation
  | rangePrompt
  | timePrompt
  | invalidRange
  | cancelled
  | saved
  | duplicateTime
  | invalidFormat
  | setupDone
deriving DecidableEq, Repr

/-- One of the six 4-hour bands offered by `setup_notifications`. -/
structure HourRange where
  label : List Nat
  startH : Nat
  endH : Nat
deriving DecidableEq, Repr

/-- `context.user_data` of an active conversation: the keyboard's ranges and
the (write-only) last selected range. -/
structure Session where
  hourRanges : List HourRange
  selectedRange : Option HourRange
deriving DecidableEq, Repr

/-- Dialog position: `idle` is `ConversationHandler.END` (no session). -/
inductive DialogState where
  | idle
  | setting (sess : Session)
deriving DecidableEq, Repr

/-- The cancel button label compared by the handlers. -/
def cancelText : List Nat :=
  [63743, 252, 238, 244, 32, 8211, 251, 8212, 199, 8211, 186, 8211, 181, 8211, 937, 8211, 8734]

/-- The back button label compared by `save_notification_time`. -/
def backText : List Nat :=
  [63743, 252, 238, 244, 32, 8211, 249, 8211, 8734, 8211, 8721, 8211, 8734, 8211, 165]

/-- The continue-prompt yes button label compared by `handle_continue_choice`. -/
def yesMoreText : List Nat :=
  [8218, 250, 214, 32, 8211, 238, 8211, 8734, 44, 32, 8211, 165, 8211, 230, 8211, 177,
   8211, 8734, 8211, 8804, 8211, 8719, 8212, 199, 8212, 229, 32, 8211, 181, 8212, 226, 8211, 181]

/-- The six alternatives of the router's first regex (the clock-face marks
opening each range label). -/
def clockMarks : List (List Nat) :=
  [[63743, 252, 239, 234], [63743, 252, 239, 235], [63743, 252, 239, 237],
   [63743, 252, 239, 236], [63743, 252, 239, 238], [63743, 252, 239, 239]]

/-- The two alternatives of the router's second regex (check and cross marks). -/
def contMarks : List (List Nat) :=
  [[8218, 250, 214], [8218, 249, 229]]

/-- Anchored alternation match: the text starts with one of the sequences. -/
def matchesAnyMark (text : List Nat) (ps : List (List Nat)) : Bool :=
  ps.any (fun p => isPrefOf p text)

/-- The six ranges written into the hour_ranges entry of user_data. -/
def defaultHourRanges : List HourRange :=
  [⟨[63743, 252, 239, 234, 32, 48, 48, 45, 48, 51, 32, 8212, 225, 8211, 8734, 8212, 197, 8211, 8734], 0, 3⟩,
   ⟨[63743, 252, 239, 235, 32, 48, 52, 45, 48, 55, 32, 8212, 225, 8211, 8734, 8212, 197, 8211, 230, 8211, 8804], 4, 7⟩,
   ⟨[63743, 252, 239, 237, 32, 48, 56, 45, 49, 49, 32, 8212, 225, 8211, 8734, 8212, 197, 8211, 230, 8211, 8804], 8, 11⟩,
   ⟨[63743, 252, 239, 236, 32, 49, 50, 45, 49, 53, 32, 8212, 225, 8211, 8734, 8212, 197, 8211, 230, 8211, 8804], 12, 15⟩,
   ⟨[63743, 252, 239, 238, 32, 49, 54, 45, 49, 57, 32, 8212, 225, 8211, 8734, 8212, 197, 8211, 230, 8211, 8804], 16, 19⟩,
   ⟨[63743, 252, 239, 239, 32, 50, 48, 45, 50, 51, 32, 8212, 225, 8211, 8734, 8212, 197, 8211, 8734], 20, 23⟩]

/-- `BotHandlers.setup_notifications`: abort to idle when the profile has no
location, otherwise (re)write the hour ranges and prompt for a band.
`prevSel` is the surviving `selected_range` entry of `context.user_data`. -/
def setup_notifications (st : DataStorage) (uid : Nat) (prevSel : Option HourRange) :
    DialogState × DataStorage × List Msg :=
  let r := get_user st uid
  if r.2.has_location = false then (.idle, r.1, [.needLocation])
  else (.setting ⟨defaultHourRanges, prevSel⟩, r.1, [.rangePrompt])

/-- Linear scan of `hour_ranges` for an exact label match. -/
def findRange (text : List Nat) : List HourRange → Option HourRange
  | [] => none
  | r :: rs => if r.label = text then some r else findRange text rs

/-- `BotHandlers.handle_time_range`: cancel ends the dialog; an unknown label
replies an error and ends; a known band is stored and the time keyboard is
shown. -/
def handle_time_range (st : DataStorage) (sess : Session) (text : List Nat) :
    DialogState × DataStorage × List Msg :=
  if text = cancelText then (.idle, st, [.cancelled])
  else
    match findRange text sess.hourRanges with
    | none => (.idle, st, [.invalidRange])
    | some r => (.setting { sess with selectedRange := some r }, st, [.timePrompt])

/-- Python whitespace characters for `str.split()` with no argument. -/
def isWS (c : Nat) : Bool :=
  c == 32 || c == 9 || c == 10 || c == 13 || c == 11 || c == 12

/-- Split a codepoint list at every separator position (pieces may be empty). -/
def splitOnPred (p : Nat → Bool) : List Nat → List (List Nat)
  | [] => [[]]
  | c :: cs =>
    match splitOnPred p cs with
    | [] => [[]]
    | g :: gs => if p c then [] :: g :: gs else (c :: g) :: gs

/-- `text.split()`: split on whitespace runs, dropping empty pieces. -/
def pySplitWS (text : List Nat) : List (List Nat) :=
  (splitOnPred isWS text).filter (fun g => !g.isEmpty)

/-- Python split of the time piece on colons, keeping empty pieces. -/
def splitColon (text : List Nat) : List (List Nat) :=
  splitOnPred (fun c => c == 58) text

/-- Value of a nonempty all-ASCII-digit numeral. -/
def digitsValAux (acc : Nat) : List Nat → Option Nat
  | [] => some acc
  | c :: cs => if 48 ≤ c ∧ c ≤ 57 then digitsValAux (acc * 10 + (c - 48)) cs else none

/-- Helper for `pyInt`: reject the empty numeral. -/
def digitsVal : List Nat → Option Nat
  | [] => none
  | c :: cs => digitsValAux 0 (c :: cs)

/-- Python `int()` on the pieces that can occur here (no inner whitespace),
restricted to ASCII numerals with an optional sign. -/
def pyInt : List Nat → Option Int
  | [] => none
  | c :: cs =>
    if c == 43 then (digitsVal cs).map (fun n => (n : Int))
    else if c == 45 then (digitsVal cs).map (fun n => -(n : Int))
    else (digitsVal (c :: cs)).map (fun n => (n : Int))

/-- The whole `try` block of `save_notification_time` up to constructing
`time(hours, minutes)`: split on whitespace, take `parts[1]`, split it on
colons into exactly two integer pieces, and require h between 0 and 23 and
`0 <= m <= 59`.  Any failure raises and is answered by the `except` path. -/
def parseTimeText (text : List Nat) : Option (Nat × Nat) :=
  match pySplitWS text with
  | _ :: timeStr :: _ =>
    match splitColon timeStr with
    | [hs, ms] =>
      match pyInt hs, pyInt ms with
      | some h, some m =>
        if 0 ≤ h ∧ h ≤ 23 ∧ 0 ≤ m ∧ m ≤ 59 then some (h.toNat, m.toNat) else none
      | _, _ => none
    | _ => none
  | _ => none

/-- `BotHandlers.save_notification_time`: cancel ends, back re-runs setup, a
parsed time is stored via `add_schedule` (continue prompt either way), and a
parse failure replies an error and re-runs setup. -/
def save_notification_time (st : DataStorage) (uid : Nat) (sess : Session) (text : List Nat) :
    DialogState × DataStorage × List Msg :=
  if text = cancelText then (.idle, st, [.cancelled])
  else if text = backText then setup_notifications st uid sess.selectedRange
  else
    match parseTimeText text with
    | some hm =>
      let r := add_schedule st uid ⟨hm.1, hm.2⟩
      if r.2 then (.setting sess, r.1, [.saved]) else (.setting sess, r.1, [.duplicateTime])
    | none =>
      let r := setup_notifications st uid sess.selectedRange
      (r.1, r.2.1, Msg.invalidFormat :: r.2.2)

/-- `BotHandlers.handle_continue_choice`: the yes button restarts setup; any
other routed text ends the dialog. -/
def handle_continue_choice (st : DataStorage) (uid : Nat) (sess : Session) (text : List Nat) :
    DialogState × DataStorage × List Msg :=
  if text = yesMoreText then setup_notifications st uid sess.selectedRange
  else (.idle, st, [.setupDone])

/-- The `SETTING_TIME` router of the conversation handler: clock-face texts
to `handle_time_range`, check/cross texts to `handle_continue_choice`,
everything else to `save_notification_time`. -/
def dialogStep (st : DataStorage) (uid : Nat) (sess : Session) (text : List Nat) :
    DialogState × DataStorage × List Msg :=
  if matchesAnyMark text clockMarks then handle_time_range st sess text
  else if matchesAnyMark text contMarks then handle_continue_choice st uid sess text
  else save_notification_time st uid sess text

/-! ### The scheduler loop (`NotificationService`)

One tick of `check_and_send_notifications`: read `utcnow`, truncate to the
minute, iterate a snapshot of the user dict, fire matching triggers that are
not yet in `sent_notifications`, mark them, then run the cleanup (which
reads the machine-local date via `datetime.now()`, a second clock).  The
fetch/transport outcome of `_send_notification` is an oracle: that method
swallows every error, so it only determines whether a message goes out. -/

/-- A dispatch attempt: the notification branch was entered for `uid` with
dedup key `key`; `delivered` tells whether a transport message went out. -/
structure Ev where
  uid : Nat
  key : List Nat
  delivered : Bool
deriving DecidableEq, Repr

/-- `NotificationService._send_notification`: a failed weather fetch returns
early, a transport error is caught and logged; no exception escapes. -/
def sendNotification (fetchOk sendOk : Bool) : Bool :=
  if fetchOk then sendOk else false

/-- The ambient inputs of one tick: the UTC date and minute-truncated time,
the machine-local date observed by the cleanup, and the per-user
fetch/transport outcome. -/
structure SchedTick where
  utcDate : Date
  utcTime : TimeHM
  localDate : Date
  env : Nat → Bool × Bool

/-- The inner `for schedule_time in user.schedules` loop of one tick. -/
def procSchedules (uid : Nat) (curD : Date) (curT : TimeHM) (outcome : Bool × Bool)
    (sent : List (List Nat)) : List TimeHM → List (List Nat) × List Ev
  | [] => (sent, [])
  | t :: ts =>
    if curT = t then
      let k := keyCodes uid curD t
      if k ∈ sent then procSchedules uid curD curT outcome sent ts
      else
        let r := procSchedules uid curD curT outcome (k :: sent) ts
        (r.1, ⟨uid, k, sendNotification outcome.1 outcome.2⟩ :: r.2)
    else procSchedules uid curD curT outcome sent ts

/-- The outer `for user_id, user in list(...)` loop of one tick. -/
def procUsers (curD : Date) (curT : TimeHM) (env : Nat → Bool × Bool)
    (sent : List (List Nat)) : List (Nat × UserData) → List (List Nat) × List Ev
  | [] => (sent, [])
  | (uid, u) :: rest =>
    if u.has_location then
      let r1 := procSchedules uid curD curT (env uid) sent u.schedules
      let r2 := procUsers curD curT env r1.1 rest
      (r2.1, r1.2 ++ r2.2)
    else procUsers curD curT env sent rest

/-- One tick: the matching pass followed by `_cleanup_old_notifications`. -/
def notifTick (st : DataStorage) (tk : SchedTick) : DataStorage × List Ev :=
  let r := procUsers tk.utcDate tk.utcTime tk.env st.sent_notifications st.users
  ({ st with sent_notifications := cleanup tk.localDate r.1 }, r.2)

/-- A run of consecutive ticks, accumulating all dispatch attempts. -/
def runTicks (st : DataStorage) : List SchedTick → DataStorage × List Ev
  | [] => (st, [])
  | tk :: tks =>
    let r1 := notifTick st tk
    let r2 := runTicks r1.1 tks
    (r2.1, r1.2 ++ r2.2)

/-- Number of dispatch attempts carrying a given dedup key. -/
def countKey (k : List Nat) (evs : List Ev) : Nat :=
  (evs.filter (fun e => decide (e.key = k))).length

/-! ### Spec-modelled definitions

src/bot.py is the UTC-only variant: its `UserData` has no timezone field and
its scheduler matches `utcnow` directly, and its `weather_cache` dict and
`WEATHER_CACHE_TTL` constant are declared but never used.  The spec (§2, §9)
describes the repository's second, timezone-aware implementation, which is
not under src/; the definitions below model those missing parts from the
spec's words. -/

/-- Modelled from the spec: the timezone-aware user profile (§3) of the
repository variant absent from src/ — timezone offset in whole hours,
range -12..14, default 0. -/
structure SpecProfile where
  uid : Nat
  hasLocation : Bool := false
  tzOffset : Int := 0
  schedules : List TimeHM := []
deriving DecidableEq, Repr

/-- Modelled from the spec: the all-default profile created on first
reference (§3, §4.1). -/
def specDefaultProfile (uid : Nat) : SpecProfile := { uid := uid }

/-- Modelled from the spec: `truncateToMinute` (§4.5), on seconds-since-epoch. -/
def truncMin (t : Int) : Int := t - Int.emod t 60

/-- Modelled from the spec: `localTime = truncateToMinute(nowUtc + offsetHours)`
(§4.5), in seconds since the epoch. -/
def specLocalSecs (utc off : Int) : Int := truncMin utc + off * 3600

/-- Modelled from the spec: the local time of day, in seconds. -/
def specLocalTOD (utc off : Int) : Int := Int.emod (specLocalSecs utc off) 86400

/-- Modelled from the spec: the local calendar day index used in `DedupKey`. -/
def specLocalDay (utc off : Int) : Int := Int.ediv (specLocalSecs utc off) 86400

/-- A trigger time as seconds of day. -/
def trigSecs (t : TimeHM) : Int := (t.hour : Int) * 3600 + (t.minute : Int) * 60

/-- Modelled from the spec: the per-tick matching pass of the timezone-aware
scheduler (§4.5 step 3) for one profile — the triggers that fire are exactly
the schedule entries equal to the computed local time. -/
def specTickFires (p : SpecProfile) (utc : Int) : List TimeHM :=
  if p.hasLocation then
    p.schedules.filter (fun t => decide (specLocalTOD utc p.tzOffset = trigSecs t))
  else []

/-- Modelled from the spec: `setTimezone(id, offsetHours)` (§4.1) of the
registry variant absent from src/ — validated input in -12..14 mutates,
invalid input leaves state unchanged and reports a ValidationError
(modelled as the returned Bool). -/
def specSetTimezone (reg : List (Nat × SpecProfile)) (uid : Nat) (off : Int) :
    List (Nat × SpecProfile) × Bool :=
  if -12 ≤ off ∧ off ≤ 14 then
    match alookup reg uid with
    | some p => (aupdate reg uid { p with tzOffset := off }, true)
    | none => (reg ++ [(uid, { specDefaultProfile uid with tzOffset := off })], true)
  else (reg, false)

/-- The 10-minute TTL, in seconds (`WEATHER_CACHE_TTL` in src/bot.py). -/
def WEATHER_CACHE_TTL_SECS : Nat := 600

/-- Modelled from the spec: the geo bucket (§4.3) — coordinates in
milli-degrees rounded down to centi-degree precision. -/
def bucketOf (lat lon : Int) : Int × Int := (Int.ediv lat 10, Int.ediv lon 10)

/-- A weather cache: geo bucket to (captured-at timestamp, payload). -/
def CacheState : Type := List ((Int × Int) × (Nat × Nat))

/-- Lookup of a bucket's entry. -/
def cacheLookup : List ((Int × Int) × (Nat × Nat)) → (Int × Int) → Option (Nat × Nat)
  | [], _ => none
  | (b, e) :: rest, key => if b = key then some e else cacheLookup rest key

/-- Overwrite a bucket's entry. -/
def cacheInsert (key : Int × Int) (v : Nat × Nat) (c : List ((Int × Int) × (Nat × Nat))) :
    List ((Int × Int) × (Nat × Nat)) :=
  (key, v) :: c.filter (fun e => decide (e.1 ≠ key))

/-- Modelled from the spec: `getOrFetch(lat, lon)` (§4.3) of the cache logic
absent from src/ (src/bot.py declares `weather_cache` and the TTL but its
`get_weather_forecast` never consults them).  Returns the payload, the new
cache state, and the number of provider calls made; `prov` is this call's
provider outcome. -/
def getOrFetch (now : Nat) (prov : Option Nat) (cache : List ((Int × Int) × (Nat × Nat)))
    (lat lon : Int) : Option Nat × List ((Int × Int) × (Nat × Nat)) × Nat :=
  let key := bucketOf lat lon
  let doFetch : Unit → Option Nat × List ((Int × Int) × (Nat × Nat)) × Nat := fun _ =>
    match prov with
    | some p => (some p, cacheInsert key (now, p) cache, 1)
    | none => (none, cache, 1)
  match cacheLookup cache key with
  | some tp => if now - tp.1 < WEATHER_CACHE_TTL_SECS then (some tp.2, cache, 0) else doFetch ()
  | none => doFetch ()

/-! ### Concrete instances used by witnesses and counterexamples -/

/-- A user with a location and one schedule entry at 08:00. -/
def uW : UserData := { user_id := 1, has_location := true, schedules := [⟨8, 0⟩] }

/-- Storage holding `uW` and an empty dedup tracker. -/
def stW : DataStorage := { users := [(1, uW)], sent_notifications := [] }

/-- A user with a location and an empty schedule set. -/
def uEmpty : UserData := { user_id := 1, has_location := true }

/-- Storage holding `uEmpty`. -/
def stEmpty : DataStorage := { users := [(1, uEmpty)], sent_notifications := [] }

/-- A registered user without a location. -/
def uNoLoc : UserData := { user_id := 2 }

/-- Storage holding `uNoLoc`. -/
def stNoLoc : DataStorage := { users := [(2, uNoLoc)], sent_notifications := [] }

/-- A user with a location and a 09:00 trigger. -/
def uNine : UserData := { user_id := 7, has_location := true, schedules := [⟨9, 0⟩] }

/-- Storage holding `uNine`. -/
def stNine : DataStorage := { users := [(7, uNine)], sent_notifications := [] }

/-- A concrete calendar date. -/
def dW : Date := ⟨2026, 10, 12⟩

/-- The following calendar date. -/
def dW2 : Date := ⟨2026, 10, 13⟩

/-- A tick at 09:00 UTC on `dW` with both clocks on `dW` and all sends fine. -/
def tkW : SchedTick := ⟨dW, ⟨9, 0⟩, dW, fun _ => (true, true)⟩

/-- A tick one minute later on the same date. -/
def tkW2 : SchedTick := ⟨dW, ⟨9, 1⟩, dW, fun _ => (true, true)⟩

/-- A fresh dialog session as written by `setup_notifications`. -/
def sessW : Session := ⟨defaultHourRanges, none⟩

/-- The free-text input z 10:07. -/
def inpTenOhSeven : List Nat := [122, 32, 49, 48, 58, 48, 55]

/-- The free-text input z 99:99. -/
def inpNinetyNine : List Nat := [122, 32, 57, 57, 58, 57, 57]

/-- A concrete cache holding payload 42 for bucket (0, 0), captured at 100 s. -/
def cacheW : List ((Int × Int) × (Nat × Nat)) := [((0, 0), (100, 42))]

/-- A session in the time-selection step with the 00-03 band selected. -/
def sessBand0 : Session := ⟨defaultHourRanges, defaultHourRanges[0]?⟩

/-- A tick at 09:00 UTC on `dW` whose weather fetch and transport both fail. -/
def tkFail : SchedTick := ⟨dW, ⟨9, 0⟩, dW, fun _ => (false, false)⟩

/-! ### Lemmas about the key rendering -/

theorem two_mem {c n : Nat} (hn : n < 100) (hc : c ∈ two n) : 48 ≤ c ∧ c ≤ 57 := by
  simp [two] at hc
  omega

theorem dateCodes_len (d : Date) : (dateCodes d).length = 10 := by
  simp [dateCodes, four, two]

theorem dateCodes_inj {d e : Date} (hd : wfDate d) (he : wfDate e)
    (h : dateCodes d = dateCodes e) : d = e := by
  cases d with
  | mk y m dd =>
    cases e with
    | mk y' m' dd' =>
      unfold wfDate at hd he
      simp only [dateCodes, four, two, List.cons_append, List.nil_append,
        List.cons.injEq] at h
      simp only [Date.mk.injEq]
      omega

theorem timeCodes_inj {t u : TimeHM} (ht : wfTime t) (hu : wfTime u)
    (h : timeCodes t = timeCodes u) : t = u := by
  cases t with
  | mk a b =>
    cases u with
    | mk a' b' =>
      unfold wfTime at ht hu
      simp only [timeCodes, two, List.cons_append, List.nil_append,
        List.cons.injEq] at h
      simp only [TimeHM.mk.injEq]
      omega

theorem mem_dateCodes {c : Nat} {d : Date} (hd : wfDate d) (hc : c ∈ dateCodes d) :
    (48 ≤ c ∧ c ≤ 57) ∨ c = 45 := by
  unfold wfDate at hd
  simp [dateCodes, four, two] at hc
  omega

theorem mem_timeCodes {c : Nat} {t : TimeHM} (ht : wfTime t) (hc : c ∈ timeCodes t) :
    (48 ≤ c ∧ c ≤ 57) ∨ c = 58 := by
  unfold wfTime at ht
  simp [timeCodes, two] at hc
  omega

theorem hyphen_mem_dateCodes (d : Date) : 45 ∈ dateCodes d := by
  simp [dateCodes]

theorem natCodesAux_lt {fuel n d : Nat} (hd : d ∈ natCodesAux fuel n) : d < 10 := by
  induction fuel generalizing n with
  | zero => simp [natCodesAux] at hd
  | succ f ih =>
    cases n with
    | zero => simp [natCodesAux] at hd
    | succ k =>
      simp [natCodesAux] at hd
      rcases hd with h | h
      · omega
      · exact ih h

theorem natCodesAux_val {fuel n : Nat} (h : n ≤ fuel) : natVal (natCodesAux fuel n) = n := by
  induction fuel generalizing n with
  | zero =>
    have hn : n = 0 := by omega
    subst hn
    simp [natCodesAux, natVal]
  | succ f ih =>
    cases n with
    | zero => simp [natCodesAux, natVal]
    | succ k =>
      have hk : (k + 1) / 10 ≤ f := by
        have := Nat.div_lt_self (Nat.succ_pos k) (by norm_num : (1 : Nat) < 10)
        omega
      simp [natCodesAux, natVal, ih hk]
      omega

theorem mem_natCodes {c n : Nat} (hc : c ∈ natCodes n) : 48 ≤ c ∧ c ≤ 57 := by
  unfold natCodes at hc
  split at hc
  · simp at hc
    omega
  · simp at hc
    obtain ⟨d, hd, rfl⟩ := hc
    have := natCodesAux_lt hd
    omega

theorem natCodes_decode (n : Nat) :
    natVal (((natCodes n).map (fun c => c - 48)).reverse) = n := by
  unfold natCodes
  split
  · subst_vars
    simp [natVal]
  · rw [List.map_map]
    have hfun : ((fun c => c - 48) ∘ (fun d => 48 + d)) = id := by
      funext d
      simp
    rw [hfun, List.map_id, List.reverse_reverse]
    exact natCodesAux_val (Nat.le_refl n)

theorem natCodes_inj {n m : Nat} (h : natCodes n = natCodes m) : n = m := by
  have h1 := natCodes_decode n
  rw [h, natCodes_decode m] at h1
  omega

/-! ### Separator lemmas: a list free of a separator character sits on one
side of it -/

theorem append_sep_inj {α : Type} {s : α} :
    ∀ {a a' : List α} {b b' : List α}, s ∉ a → s ∉ a' →
      a ++ s :: b = a' ++ s :: b' → a = a' ∧ b = b'
  | [], [], _, _, _, _, h => by simpa using h
  | [], x :: xs, b, b', _, ha', h => by
    simp at h
    exact absurd (h.1 ▸ List.mem_cons_self x xs) ha'
  | x :: xs, [], b, b', ha, _, h => by
    simp at h
    exact absurd (h.1.symm ▸ List.mem_cons_self x xs) ha
  | x :: xs, y :: ys, b, b', ha, ha', h => by
    simp only [List.cons_append, List.cons.injEq] at h
    obtain ⟨rfl, h2⟩ := h
    have ih := append_sep_inj (fun hs => ha (List.mem_cons_of_mem x hs))
      (fun hs => ha' (List.mem_cons_of_mem x hs)) h2
    exact ⟨by rw [ih.1], ih.2⟩

theorem isSubOfPref {α : Type} {a b : List α} (h : a <+: b) : a <:+: b := by
  obtain ⟨t, rfl⟩ := h
  exact ⟨[], t, by simp⟩

theorem pref_through_sep {α : Type} {w x y : List α} {c : α}
    (hc : c ∉ w) (h : w <+: x ++ c :: y) : w <+: x := by
  by_cases hle : w.length ≤ x.length
  · exact List.prefix_of_prefix_length_le h (List.prefix_append x (c :: y)) hle
  · exfalso
    have hxc : x ++ [c] <+: x ++ c :: y := ⟨y, by simp⟩
    have hsub : x ++ [c] <+: w := by
      apply List.prefix_of_prefix_length_le hxc h
      simp
      omega
    exact hc (hsub.subset (by simp))

theorem inf_through_sep {α : Type} {w : List α} {c : α} (hc : c ∉ w) :
    ∀ {x y : List α}, w <:+: x ++ c :: y → w <:+: x ∨ w <:+: y := by
  intro x
  induction x with
  | nil =>
    intro y h
    rw [List.nil_append] at h
    rcases List.infix_cons_iff.mp h with hp | hi
    · have hnil : w <+: ([] : List α) := pref_through_sep hc (by simpa using hp)
      have : w = [] := List.prefix_nil.mp hnil
      subst this
      exact Or.inr List.nil_infix
    · exact Or.inr hi
  | cons a x' ih =>
    intro y h
    rcases List.infix_cons_iff.mp h with hp | hi
    · left
      exact isSubOfPref (pref_through_sep hc (by simpa using hp))
    · rcases ih hi with h1 | h2
      · exact Or.inl (List.infix_cons h1)
      · exact Or.inr h2

/-! ### Lemmas about whole dedup keys -/

theorem usep_not_mem_natCodes (n : Nat) : 95 ∉ natCodes n := by
  intro h
  have := mem_natCodes h
  omega

theorem usep_not_mem_dateCodes {d : Date} (hd : wfDate d) : 95 ∉ dateCodes d := by
  intro h
  have := mem_dateCodes hd h
  omega

theorem keyCodes_inj {u u' : Nat} {d d' : Date} {t t' : TimeHM}
    (hd : wfDate d) (hd' : wfDate d') (ht : wfTime t) (ht' : wfTime t')
    (h : keyCodes u d t = keyCodes u' d' t') : u = u' ∧ d = d' ∧ t = t' := by
  unfold keyCodes at h
  have h1 := append_sep_inj (usep_not_mem_natCodes u) (usep_not_mem_natCodes u') h
  have h2 := append_sep_inj (usep_not_mem_dateCodes hd) (usep_not_mem_dateCodes hd') h1.2
  exact ⟨natCodes_inj h1.1, dateCodes_inj hd hd' h2.1, timeCodes_inj ht ht' h2.2⟩

theorem dateCodes_sub_keyCodes (u : Nat) (d : Date) (t : TimeHM) :
    dateCodes d <:+: keyCodes u d t :=
  ⟨natCodes u ++ [95], 95 :: timeCodes t, by simp [keyCodes]⟩

theorem dateCodes_sub_keyCodes_eq {cur : Date} {u : Nat} {d : Date} {t : TimeHM}
    (hcur : wfDate cur) (hd : wfDate d) (ht : wfTime t)
    (h : dateCodes cur <:+: keyCodes u d t) : cur = d := by
  have husep : (95 : Nat) ∉ dateCodes cur := usep_not_mem_dateCodes hcur
  unfold keyCodes at h
  rcases inf_through_sep husep h with h1 | h2
  · exfalso
    have : (45 : Nat) ∈ natCodes u := h1.sublist.subset (hyphen_mem_dateCodes cur)
    have := mem_natCodes this
    omega
  · rcases inf_through_sep husep h2 with h3 | h4
    · have hlen : (dateCodes cur).length = (dateCodes d).length := by
        rw [dateCodes_len, dateCodes_len]
      exact dateCodes_inj hcur hd (h3.sublist.eq_of_length hlen)
    · exfalso
      have : (45 : Nat) ∈ timeCodes t := h4.sublist.subset (hyphen_mem_dateCodes cur)
      have := mem_timeCodes ht this
      omega

/-! ### Correctness of the executable substring test -/

theorem isPrefOf_iff {w l : List Nat} : isPrefOf w l = true ↔ w <+: l := by
  induction w generalizing l with
  | nil => simp [isPrefOf]
  | cons a as ih =>
    cases l with
    | nil => simp [isPrefOf]
    | cons b bs =>
      simp [isPrefOf, ih, List.cons_prefix_cons]

theorem hasSub_iff {w l : List Nat} : hasSub w l = true ↔ w <:+: l := by
  induction l with
  | nil =>
    simp only [hasSub, List.isEmpty_iff]
    constructor
    · rintro rfl
      exact List.nil_infix
    · intro h
      simpa using h.sublist.eq_of_length_le (by simp)
  | cons a l ih =>
    simp only [hasSub, Bool.or_eq_true, isPrefOf_iff, ih]
    exact (List.infix_cons_iff).symm

/-! ### The cleanup pass (claim C6 core) -/

theorem mem_cleanup_iff {cur : Date} {u : Nat} {d : Date} {t : TimeHM}
    (hcur : wfDate cur) (hd : wfDate d) (ht : wfTime t) (ks : List (List Nat)) :
    keyCodes u d t ∈ cleanup cur ks ↔ keyCodes u d t ∈ ks ∧ d = cur := by
  unfold cleanup
  rw [List.mem_filter]
  constructor
  · rintro ⟨hmem, hsub⟩
    exact ⟨hmem, (dateCodes_sub_keyCodes_eq hcur hd ht (hasSub_iff.mp hsub)).symm⟩
  · rintro ⟨hmem, rfl⟩
    exact ⟨hmem, hasSub_iff.mpr (dateCodes_sub_keyCodes u d t)⟩

/-! ### Registry and sort lemmas -/

theorem sortTimes_sorted (l : List TimeHM) : List.Sorted timeLE (sortTimes l) :=
  List.sorted_insertionSort timeLE l

theorem sortTimes_perm (l : List TimeHM) : List.Perm (sortTimes l) l :=
  List.perm_insertionSort timeLE l

theorem get_user_found {st : DataStorage} {uid : Nat} {u : UserData}
    (h : alookup st.users uid = some u) : get_user st uid = (st, u) := by
  unfold get_user
  rw [h]

theorem alookup_aupdate_self {β : Type} {l : List (Nat × β)} {k : Nat} {v₀ : β} (v : β)
    (h : alookup l k = some v₀) : alookup (aupdate l k v) k = some v := by
  induction l with
  | nil => simp [alookup] at h
  | cons e rest ih =>
    obtain ⟨i, w⟩ := e
    by_cases he : i = k
    · subst he
      rw [aupdate, List.map_cons]
      have hhead : (if (i, w).1 = i then (i, v) else (i, w)) = (i, v) := by simp
      rw [hhead]
      simp [alookup]
    · simp only [alookup, if_neg he] at h
      rw [aupdate, List.map_cons]
      have hhead : (if (i, w).1 = k then (k, v) else (i, w)) = (i, w) := by simp [he]
      rw [hhead]
      simp only [alookup, if_neg he]
      simpa [aupdate] using ih h

theorem alookup_append_absent {β : Type} {l : List (Nat × β)} {k : Nat} (v : β)
    (h : alookup l k = none) : alookup (l ++ [(k, v)]) k = some v := by
  induction l with
  | nil => simp [alookup]
  | cons e rest ih =>
    obtain ⟨i, w⟩ := e
    by_cases he : i = k
    · simp [alookup, he] at h
    · simp only [alookup, if_neg he] at h
      simp only [List.cons_append, alookup, if_neg he]
      exact ih h

/-! ### Unfolding equations for the tick loops -/

theorem procSchedules_nil {uid : Nat} {curD : Date} {curT : TimeHM} {outcome : Bool × Bool}
    {sent : List (List Nat)} : procSchedules uid curD curT outcome sent [] = (sent, []) := rfl

theorem procSchedules_cons_nom {uid : Nat} {curD : Date} {curT : TimeHM} {outcome : Bool × Bool}
    {sent : List (List Nat)} {t : TimeHM} {ts : List TimeHM} (hm : ¬curT = t) :
    procSchedules uid curD curT outcome sent (t :: ts) =
      procSchedules uid curD curT outcome sent ts := by
  simp [procSchedules, hm]

theorem procSchedules_cons_skip {uid : Nat} {curD : Date} {curT : TimeHM} {outcome : Bool × Bool}
    {sent : List (List Nat)} {t : TimeHM} {ts : List TimeHM} (hm : curT = t)
    (hk : keyCodes uid curD t ∈ sent) :
    procSchedules uid curD curT outcome sent (t :: ts) =
      procSchedules uid curD curT outcome sent ts := by
  simp [procSchedules, hm, hk]

theorem procSchedules_cons_fire {uid : Nat} {curD : Date} {curT : TimeHM} {outcome : Bool × Bool}
    {sent : List (List Nat)} {t : TimeHM} {ts : List TimeHM} (hm : curT = t)
    (hk : keyCodes uid curD t ∉ sent) :
    procSchedules uid curD curT outcome sent (t :: ts) =
      ((procSchedules uid curD curT outcome (keyCodes uid curD t :: sent) ts).1,
       ⟨uid, keyCodes uid curD t, sendNotification outcome.1 outcome.2⟩ ::
         (procSchedules uid curD curT outcome (keyCodes uid curD t :: sent) ts).2) := by
  simp [procSchedules, hm, hk]

theorem procUsers_nil {curD : Date} {curT : TimeHM} {env : Nat → Bool × Bool}
    {sent : List (List Nat)} : procUsers curD curT env sent [] = (sent, []) := rfl

theorem procUsers_cons_loc {curD : Date} {curT : TimeHM} {env : Nat → Bool × Bool}
    {sent : List (List Nat)} {uid : Nat} {u : UserData} {rest : List (Nat × UserData)}
    (hl : u.has_location = true) :
    procUsers curD curT env sent ((uid, u) :: rest) =
      ((procUsers curD curT env
          (procSchedules uid curD curT (env uid) sent u.schedules).1 rest).1,
       (procSchedules uid curD curT (env uid) sent u.schedules).2 ++
         (procUsers curD curT env
           (procSchedules uid curD curT (env uid) sent u.schedules).1 rest).2) := by
  simp [procUsers, hl]

theorem procUsers_cons_noloc {curD : Date} {curT : TimeHM} {env : Nat → Bool × Bool}
    {sent : List (List Nat)} {uid : Nat} {u : UserData} {rest : List (Nat × UserData)}
    (hl : u.has_location = false) :
    procUsers curD curT env sent ((uid, u) :: rest) = procUsers curD curT env sent rest := by
  simp [procUsers, hl]

/-! ### Counting dispatch attempts -/

theorem countKey_nil {k : List Nat} : countKey k [] = 0 := rfl

theorem countKey_cons {k : List Nat} {e : Ev} {es : List Ev} :
    countKey k (e :: es) = (if e.key = k then 1 else 0) + countKey k es := by
  by_cases h : e.key = k <;> simp [countKey, List.filter_cons, h] <;> omega

theorem countKey_append {k : List Nat} {a b : List Ev} :
    countKey k (a ++ b) = countKey k a + countKey k b := by
  simp [countKey, List.filter_append]

theorem countKey_eq_zero_iff {k : List Nat} {es : List Ev} :
    countKey k es = 0 ↔ ∀ ev ∈ es, ev.key ≠ k := by
  induction es with
  | nil => simp [countKey_nil]
  | cons e es ih =>
    rw [countKey_cons]
    by_cases h : e.key = k <;> simp [h, ih]

theorem countKey_pos_iff {k : List Nat} {es : List Ev} :
    0 < countKey k es ↔ ∃ ev ∈ es, ev.key = k := by
  rw [Nat.pos_iff_ne_zero, Ne, countKey_eq_zero_iff]
  push_neg
  rfl

/-! ### Properties of the inner schedules loop -/

theorem procSchedules_sent_mono {uid : Nat} {curD : Date} {curT : TimeHM}
    {outcome : Bool × Bool} {sent : List (List Nat)} {ts : List TimeHM} {x : List Nat}
    (hx : x ∈ sent) : x ∈ (procSchedules uid curD curT outcome sent ts).1 := by
  induction ts generalizing sent with
  | nil => rw [procSchedules_nil]; exact hx
  | cons t ts ih =>
    by_cases hm : curT = t
    · by_cases hk : keyCodes uid curD t ∈ sent
      · rw [procSchedules_cons_skip hm hk]; exact ih hx
      · rw [procSchedules_cons_fire hm hk]
        exact ih (List.mem_cons_of_mem _ hx)
    · rw [procSchedules_cons_nom hm]; exact ih hx

theorem procSchedules_no_reemit {uid : Nat} {curD : Date} {curT : TimeHM}
    {outcome : Bool × Bool} {sent : List (List Nat)} {ts : List TimeHM} {k : List Nat}
    (hk : k ∈ sent) :
    ∀ ev ∈ (procSchedules uid curD curT outcome sent ts).2, ev.key ≠ k := by
  induction ts generalizing sent with
  | nil => intro ev hev; rw [procSchedules_nil] at hev; simp at hev
  | cons t ts ih =>
    intro ev hev
    by_cases hm : curT = t
    · by_cases hks : keyCodes uid curD t ∈ sent
      · rw [procSchedules_cons_skip hm hks] at hev
        exact ih hk ev hev
      · rw [procSchedules_cons_fire hm hks] at hev
        rcases List.mem_cons.mp hev with rfl | hev'
        · intro hkey
          exact hks (by rw [show Ev.key ⟨uid, keyCodes uid curD t, sendNotification outcome.1 outcome.2⟩ = keyCodes uid curD t from rfl] at hkey; rw [hkey]; exact hk)
        · exact ih (List.mem_cons_of_mem _ hk) ev hev'
    · rw [procSchedules_cons_nom hm] at hev
      exact ih hk ev hev

theorem procSchedules_ev_shape {uid : Nat} {curD : Date} {curT : TimeHM}
    {outcome : Bool × Bool} {sent : List (List Nat)} {ts : List TimeHM} {ev : Ev}
    (hev : ev ∈ (procSchedules uid curD curT outcome sent ts).2) :
    ∃ t', t' ∈ ts ∧ curT = t' ∧
      ev = ⟨uid, keyCodes uid curD t', sendNotification outcome.1 outcome.2⟩ := by
  induction ts generalizing sent with
  | nil => rw [procSchedules_nil] at hev; simp at hev
  | cons t ts ih =>
    by_cases hm : curT = t
    · by_cases hks : keyCodes uid curD t ∈ sent
      · rw [procSchedules_cons_skip hm hks] at hev
        obtain ⟨t', h1, h2, h3⟩ := ih hev
        exact ⟨t', List.mem_cons_of_mem _ h1, h2, h3⟩
      · rw [procSchedules_cons_fire hm hks] at hev
        rcases List.mem_cons.mp hev with rfl | hev'
        · exact ⟨t, List.mem_cons_self _ _, hm, rfl⟩
        · obtain ⟨t', h1, h2, h3⟩ := ih hev'
          exact ⟨t', List.mem_cons_of_mem _ h1, h2, h3⟩
    · rw [procSchedules_cons_nom hm] at hev
      obtain ⟨t', h1, h2, h3⟩ := ih hev
      exact ⟨t', List.mem_cons_of_mem _ h1, h2, h3⟩

theorem procSchedules_sent_src {uid : Nat} {curD : Date} {curT : TimeHM}
    {outcome : Bool × Bool} {sent : List (List Nat)} {ts : List TimeHM} {x : List Nat}
    (hx : x ∈ (procSchedules uid curD curT outcome sent ts).1) :
    x ∈ sent ∨ ∃ ev ∈ (procSchedules uid curD curT outcome sent ts).2, ev.key = x := by
  induction ts generalizing sent with
  | nil => rw [procSchedules_nil] at hx; exact Or.inl hx
  | cons t ts ih =>
    by_cases hm : curT = t
    · by_cases hks : keyCodes uid curD t ∈ sent
      · rw [procSchedules_cons_skip hm hks] at hx ⊢
        exact ih hx
      · rw [procSchedules_cons_fire hm hks] at hx ⊢
        rcases ih hx with hin | ⟨ev, hev, hkey⟩
        · rcases List.mem_cons.mp hin with rfl | hin'
          · exact Or.inr ⟨_, List.mem_cons_self _ _, rfl⟩
          · exact Or.inl hin'
        · exact Or.inr ⟨ev, List.mem_cons_of_mem _ hev, hkey⟩
    · rw [procSchedules_cons_nom hm] at hx ⊢
      exact ih hx

theorem procSchedules_emitted_mem {uid : Nat} {curD : Date} {curT : TimeHM}
    {outcome : Bool × Bool} {sent : List (List Nat)} {ts : List TimeHM} {k : List Nat}
    (h : ∃ ev ∈ (procSchedules uid curD curT outcome sent ts).2, ev.key = k) :
    k ∈ (procSchedules uid curD curT outcome sent ts).1 := by
  induction ts generalizing sent with
  | nil => rw [procSchedules_nil] at h; simp at h
  | cons t ts ih =>
    obtain ⟨ev, hev, hkey⟩ := h
    by_cases hm : curT = t
    · by_cases hks : keyCodes uid curD t ∈ sent
      · rw [procSchedules_cons_skip hm hks] at hev ⊢
        exact ih ⟨ev, hev, hkey⟩
      · rw [procSchedules_cons_fire hm hks] at hev ⊢
        rcases List.mem_cons.mp hev with rfl | hev'
        · rw [← hkey]
          exact procSchedules_sent_mono (List.mem_cons_self _ _)
        · exact ih ⟨ev, hev', hkey⟩
    · rw [procSchedules_cons_nom hm] at hev ⊢
      exact ih ⟨ev, hev, hkey⟩

theorem procSchedules_count_le_one {uid : Nat} {curD : Date} {curT : TimeHM}
    {outcome : Bool × Bool} {sent : List (List Nat)} {ts : List TimeHM} (k : List Nat) :
    countKey k (procSchedules uid curD curT outcome sent ts).2 ≤ 1 := by
  induction ts generalizing sent with
  | nil => rw [procSchedules_nil, countKey_nil]; omega
  | cons t ts ih =>
    by_cases hm : curT = t
    · by_cases hks : keyCodes uid curD t ∈ sent
      · rw [procSchedules_cons_skip hm hks]; exact ih
      · rw [procSchedules_cons_fire hm hks, countKey_cons]
        by_cases hkk : keyCodes uid curD t = k
        · have hz : countKey k
              (procSchedules uid curD curT outcome (keyCodes uid curD t :: sent) ts).2 = 0 :=
            countKey_eq_zero_iff.mpr
              (procSchedules_no_reemit (hkk ▸ List.mem_cons_self _ _))
          simp only [hz]
          split <;> omega
        · have hif : (if (Ev.key ⟨uid, keyCodes uid curD t, sendNotification outcome.1 outcome.2⟩) = k then 1 else 0) = 0 := by
            simp [hkk]
          rw [hif]
          have := @ih (keyCodes uid curD t :: sent)
          omega
    · rw [procSchedules_cons_nom hm]; exact ih

theorem procSchedules_fires {uid : Nat} {curD : Date} {curT : TimeHM}
    {outcome : Bool × Bool} {sent : List (List Nat)} {ts : List TimeHM} {t : TimeHM}
    (hm : curT = t) (hts : t ∈ ts) (hk : keyCodes uid curD t ∉ sent) :
    ∃ ev ∈ (procSchedules uid curD curT outcome sent ts).2,
      ev = ⟨uid, keyCodes uid curD t, sendNotification outcome.1 outcome.2⟩ := by
  induction ts generalizing sent with
  | nil => simp at hts
  | cons t₀ ts ih =>
    by_cases hm0 : curT = t₀
    · have ht0 : t₀ = t := by rw [← hm0, hm]
      subst ht0
      rw [procSchedules_cons_fire hm0 hk]
      exact ⟨_, List.mem_cons_self _ _, rfl⟩
    · have hts' : t ∈ ts := by
        rcases List.mem_cons.mp hts with rfl | h
        · exact absurd hm hm0
        · exact h
      rw [procSchedules_cons_nom hm0]
      exact ih hts' hk

/-! ### Properties of the outer user loop -/

theorem procUsers_sent_mono {curD : Date} {curT : TimeHM} {env : Nat → Bool × Bool}
    {sent : List (List Nat)} {us : List (Nat × UserData)} {x : List Nat}
    (hx : x ∈ sent) : x ∈ (procUsers curD curT env sent us).1 := by
  induction us generalizing sent with
  | nil => rw [procUsers_nil]; exact hx
  | cons hd rest ih =>
    obtain ⟨uid₀, u₀⟩ := hd
    by_cases hloc : u₀.has_location
    · rw [procUsers_cons_loc hloc]
      exact ih (procSchedules_sent_mono hx)
    · rw [procUsers_cons_noloc (Bool.not_eq_true _ ▸ hloc)]
      exact ih hx

theorem procUsers_no_reemit {curD : Date} {curT : TimeHM} {env : Nat → Bool × Bool}
    {sent : List (List Nat)} {us : List (Nat × UserData)} {k : List Nat}
    (hk : k ∈ sent) :
    ∀ ev ∈ (procUsers curD curT env sent us).2, ev.key ≠ k := by
  induction us generalizing sent with
  | nil => intro ev hev; rw [procUsers_nil] at hev; simp at hev
  | cons hd rest ih =>
    obtain ⟨uid₀, u₀⟩ := hd
    intro ev hev
    by_cases hloc : u₀.has_location
    · rw [procUsers_cons_loc hloc] at hev
      rcases List.mem_append.mp hev with h1 | h2
      · exact procSchedules_no_reemit hk ev h1
      · exact ih (procSchedules_sent_mono hk) ev h2
    · rw [procUsers_cons_noloc (Bool.not_eq_true _ ▸ hloc)] at hev
      exact ih hk ev hev

theorem procUsers_ev_shape {curD : Date} {curT : TimeHM} {env : Nat → Bool × Bool}
    {sent : List (List Nat)} {us : List (Nat × UserData)} {ev : Ev}
    (hev : ev ∈ (procUsers curD curT env sent us).2) :
    ∃ uid u t', (uid, u) ∈ us ∧ u.has_location = true ∧ t' ∈ u.schedules ∧ curT = t' ∧
      ev = ⟨uid, keyCodes uid curD t', sendNotification (env uid).1 (env uid).2⟩ := by
  induction us generalizing sent with
  | nil => rw [procUsers_nil] at hev; simp at hev
  | cons hd rest ih =>
    obtain ⟨uid₀, u₀⟩ := hd
    by_cases hloc : u₀.has_location
    · rw [procUsers_cons_loc hloc] at hev
      rcases List.mem_append.mp hev with h1 | h2
      · obtain ⟨t', h1', h2', h3'⟩ := procSchedules_ev_shape h1
        exact ⟨uid₀, u₀, t', List.mem_cons_self _ _, hloc, h1', h2', h3'⟩
      · obtain ⟨uid, u, t', hmem, h1', h2', h3', h4'⟩ := ih h2
        exact ⟨uid, u, t', List.mem_cons_of_mem _ hmem, h1', h2', h3', h4'⟩
    · rw [procUsers_cons_noloc (Bool.not_eq_true _ ▸ hloc)] at hev
      obtain ⟨uid, u, t', hmem, h1', h2', h3', h4'⟩ := ih hev
      exact ⟨uid, u, t', List.mem_cons_of_mem _ hmem, h1', h2', h3', h4'⟩

theorem procUsers_sent_src {curD : Date} {curT : TimeHM} {env : Nat → Bool × Bool}
    {sent : List (List Nat)} {us : List (Nat × UserData)} {x : List Nat}
    (hx : x ∈ (procUsers curD curT env sent us).1) :
    x ∈ sent ∨ ∃ ev ∈ (procUsers curD curT env sent us).2, ev.key = x := by
  induction us generalizing sent with
  | nil => rw [procUsers_nil] at hx; exact Or.inl hx
  | cons hd rest ih =>
    obtain ⟨uid₀, u₀⟩ := hd
    by_cases hloc : u₀.has_location
    · rw [procUsers_cons_loc hloc] at hx ⊢
      rcases ih hx with hin | ⟨ev, hev, hkey⟩
      · rcases procSchedules_sent_src hin with h1 | ⟨ev, hev, hkey⟩
        · exact Or.inl h1
        · exact Or.inr ⟨ev, List.mem_append_left _ hev, hkey⟩
      · exact Or.inr ⟨ev, List.mem_append_right _ hev, hkey⟩
    · rw [procUsers_cons_noloc (Bool.not_eq_true _ ▸ hloc)] at hx ⊢
      exact ih hx

theorem procUsers_emitted_mem {curD : Date} {curT : TimeHM} {env : Nat → Bool × Bool}
    {sent : List (List Nat)} {us : List (Nat × UserData)} {k : List Nat}
    (h : ∃ ev ∈ (procUsers curD curT env sent us).2, ev.key = k) :
    k ∈ (procUsers curD curT env sent us).1 := by
  induction us generalizing sent with
  | nil => rw [procUsers_nil] at h; simp at h
  | cons hd rest ih =>
    obtain ⟨uid₀, u₀⟩ := hd
    obtain ⟨ev, hev, hkey⟩ := h
    by_cases hloc : u₀.has_location
    · rw [procUsers_cons_loc hloc] at hev ⊢
      rcases List.mem_append.mp hev with h1 | h2
      · exact procUsers_sent_mono (procSchedules_emitted_mem ⟨ev, h1, hkey⟩)
      · exact ih ⟨ev, h2, hkey⟩
    · rw [procUsers_cons_noloc (Bool.not_eq_true _ ▸ hloc)] at hev ⊢
      exact ih ⟨ev, hev, hkey⟩

theorem procUsers_count_le_one {curD : Date} {curT : TimeHM} {env : Nat → Bool × Bool}
    {sent : List (List Nat)} {us : List (Nat × UserData)} (k : List Nat) :
    countKey k (procUsers curD curT env sent us).2 ≤ 1 := by
  induction us generalizing sent with
  | nil => rw [procUsers_nil, countKey_nil]; omega
  | cons hd rest ih =>
    obtain ⟨uid₀, u₀⟩ := hd
    by_cases hloc : u₀.has_location
    · rw [procUsers_cons_loc hloc, countKey_append]
      by_cases hpos :
          0 < countKey k (procSchedules uid₀ curD curT (env uid₀) sent u₀.schedules).2
      · have hk1 := procSchedules_emitted_mem (countKey_pos_iff.mp hpos)
        have hz : countKey k (procUsers curD curT env
            (procSchedules uid₀ curD curT (env uid₀) sent u₀.schedules).1 rest).2 = 0 :=
          countKey_eq_zero_iff.mpr (procUsers_no_reemit hk1)
        have h1 := @procSchedules_count_le_one uid₀ curD curT (env uid₀) sent u₀.schedules k
        omega
      · have := @ih (procSchedules uid₀ curD curT (env uid₀) sent u₀.schedules).1
        omega
    · rw [procUsers_cons_noloc (Bool.not_eq_true _ ▸ hloc)]
      exact ih

theorem procUsers_fires {curD : Date} {curT : TimeHM} {env : Nat → Bool × Bool}
    {sent : List (List Nat)} {us : List (Nat × UserData)} {uid : Nat} {u : UserData}
    {t : TimeHM} (hmem : (uid, u) ∈ us) (hloc : u.has_location = true)
    (ht : t ∈ u.schedules) (hm : curT = t) (hk : keyCodes uid curD t ∉ sent) :
    ∃ ev ∈ (procUsers curD curT env sent us).2, ev.key = keyCodes uid curD t := by
  induction us generalizing sent with
  | nil => simp at hmem
  | cons hd rest ih =>
    obtain ⟨uid₀, u₀⟩ := hd
    rcases List.mem_cons.mp hmem with heq | hmem'
    · injection heq with he1 he2
      subst he1
      subst he2
      rw [procUsers_cons_loc hloc]
      obtain ⟨ev, hev, hevshape⟩ := @procSchedules_fires uid curD curT (env uid) sent u.schedules t hm ht hk
      exact ⟨ev, List.mem_append_left _ hev, by rw [hevshape]⟩
    · by_cases hloc0 : u₀.has_location
      · rw [procUsers_cons_loc hloc0]
        by_cases hk1 : ∃ ev ∈ (procSchedules uid₀ curD curT (env uid₀) sent u₀.schedules).2,
            ev.key = keyCodes uid curD t
        · obtain ⟨ev, hev, hkey⟩ := hk1
          exact ⟨ev, List.mem_append_left _ hev, hkey⟩
        · have hknot : keyCodes uid curD t ∉
              (procSchedules uid₀ curD curT (env uid₀) sent u₀.schedules).1 := by
            intro hmem''
            rcases procSchedules_sent_src hmem'' with h | h
            · exact hk h
            · exact hk1 h
          obtain ⟨ev, hev, hkey⟩ := ih hmem' hknot
          exact ⟨ev, List.mem_append_right _ hev, hkey⟩
      · rw [procUsers_cons_noloc (Bool.not_eq_true _ ▸ hloc0)]
        exact ih hmem' hk

/-! ### Tick- and run-level lemmas -/

theorem notifTick_users (st : DataStorage) (tk : SchedTick) :
    (notifTick st tk).1.users = st.users := rfl

theorem runTicks_users (st : DataStorage) (tks : List SchedTick) :
    (runTicks st tks).1.users = st.users := by
  induction tks generalizing st with
  | nil => rfl
  | cons tk tks ih =>
    show (runTicks (notifTick st tk).1 tks).1.users = st.users
    rw [ih, notifTick_users]

theorem notifTick_events (st : DataStorage) (tk : SchedTick) :
    (notifTick st tk).2 =
      (procUsers tk.utcDate tk.utcTime tk.env st.sent_notifications st.users).2 := rfl

theorem runTicks_events (st : DataStorage) (tk : SchedTick) (tks : List SchedTick) :
    (runTicks st (tk :: tks)).2 = (notifTick st tk).2 ++ (runTicks (notifTick st tk).1 tks).2 :=
  rfl

/-- Any dispatch attempt carrying the key built from well-formed `(uid, D, t)`
was produced at a tick whose UTC date is `D` and whose truncated UTC time is
`t`, by the user `uid`, with the delivery outcome of `_send_notification`. -/
theorem notifTick_key_ev {st : DataStorage} {tk : SchedTick} {uid : Nat} {D : Date}
    {t : TimeHM} {ev : Ev}
    (hwfS : ∀ p ∈ st.users, ∀ t' ∈ p.2.schedules, wfTime t')
    (hwfD : wfDate tk.utcDate) (hD : wfDate D) (ht : wfTime t)
    (hev : ev ∈ (notifTick st tk).2) (hkey : ev.key = keyCodes uid D t) :
    tk.utcDate = D ∧ tk.utcTime = t ∧
      ev = ⟨uid, keyCodes uid D t, sendNotification (tk.env uid).1 (tk.env uid).2⟩ := by
  rw [notifTick_events] at hev
  obtain ⟨uid', u', t', hmem, hloc', ht', hcur, hshape⟩ := procUsers_ev_shape hev
  have hwft' : wfTime t' := hwfS _ hmem _ ht'
  have hkeys : keyCodes uid' tk.utcDate t' = keyCodes uid D t := by
    rw [hshape] at hkey
    exact hkey
  obtain ⟨hu, hd, ht2⟩ := keyCodes_inj hwfD hD hwft' ht hkeys
  subst hu
  subst hd
  subst ht2
  exact ⟨rfl, hcur, hshape⟩

theorem notifTick_count_le_one (st : DataStorage) (tk : SchedTick) (k : List Nat) :
    countKey k (notifTick st tk).2 ≤ 1 := by
  rw [notifTick_events]
  exact procUsers_count_le_one k

theorem notifTick_recorded_no_dispatch {st : DataStorage} {tk : SchedTick} {k : List Nat}
    (hk : k ∈ st.sent_notifications) : countKey k (notifTick st tk).2 = 0 := by
  rw [notifTick_events]
  exact countKey_eq_zero_iff.mpr (procUsers_no_reemit hk)

theorem runTicks_count_zero {uid : Nat} {D : Date} {t : TimeHM}
    (hD : wfDate D) (ht : wfTime t) :
    ∀ {st : DataStorage} {tks : List SchedTick},
      (∀ p ∈ st.users, ∀ t' ∈ p.2.schedules, wfTime t') →
      (∀ tk ∈ tks, wfDate tk.utcDate) →
      (∀ tk ∈ tks, ¬(tk.utcDate = D ∧ tk.utcTime = t)) →
      countKey (keyCodes uid D t) (runTicks st tks).2 = 0 := by
  intro st tks
  induction tks generalizing st with
  | nil => intro _ _ _; rfl
  | cons tk tks ih =>
    intro hwfS hwfT hnone
    rw [runTicks_events, countKey_append]
    have h1 : countKey (keyCodes uid D t) (notifTick st tk).2 = 0 := by
      by_contra hne
      have hpos : 0 < countKey (keyCodes uid D t) (notifTick st tk).2 := by omega
      obtain ⟨ev, hev, hkey⟩ := countKey_pos_iff.mp hpos
      obtain ⟨hd, htm, _⟩ :=
        notifTick_key_ev hwfS (hwfT tk (List.mem_cons_self _ _)) hD ht hev hkey
      exact hnone tk (List.mem_cons_self _ _) ⟨hd, htm⟩
    have h2 : countKey (keyCodes uid D t) (runTicks (notifTick st tk).1 tks).2 = 0 := by
      apply ih
      · rw [notifTick_users]
        exact hwfS
      · intro tk' h
        exact hwfT tk' (List.mem_cons_of_mem _ h)
      · intro tk' h
        exact hnone tk' (List.mem_cons_of_mem _ h)
    omega

/-! ### Claim theorems -/

/-- Claim C5: for every user and trigger time `t`, `add_schedule` with `t`
already present returns false and mutates nothing; from a state without `t`,
adding `t` twice leaves exactly one copy of `t` (the second call returning
false and mutating nothing), and the schedule list is sorted ascending after
the mutating add. -/
theorem add_schedule_contract {st : DataStorage} {uid : Nat} {t : TimeHM} {u : UserData}
    (hu : alookup st.users uid = some u) :
    (t ∈ u.schedules → add_schedule st uid t = (st, false)) ∧
    (t ∉ u.schedules →
      (add_schedule st uid t).2 = true ∧
      alookup (add_schedule st uid t).1.users uid =
        some { u with schedules := sortTimes (u.schedules ++ [t]) } ∧
      List.count t (sortTimes (u.schedules ++ [t])) = 1 ∧
      List.Sorted timeLE (sortTimes (u.schedules ++ [t])) ∧
      add_schedule (add_schedule st uid t).1 uid t = ((add_schedule st uid t).1, false)) := by
  constructor
  · intro hmem
    unfold add_schedule
    rw [get_user_found hu]
    simp [hmem]
  · intro hnot
    have h2 : add_schedule st uid t = ({ st with users := aupdate st.users uid ({ u with schedules := sortTimes (u.schedules ++ [t]) }) }, true) := by
      unfold add_schedule
      rw [get_user_found hu]
      simp [hnot]
    have hlkup : alookup (add_schedule st uid t).1.users uid =
        some { u with schedules := sortTimes (u.schedules ++ [t]) } := by
      rw [h2]
      exact alookup_aupdate_self _ hu
    refine ⟨by rw [h2], hlkup, ?_, sortTimes_sorted _, ?_⟩
    · rw [(sortTimes_perm (u.schedules ++ [t])).count_eq, List.count_append]
      simp [List.count_eq_zero.mpr hnot]
    · have hmem' : t ∈ sortTimes (u.schedules ++ [t]) := by
        rw [(sortTimes_perm (u.schedules ++ [t])).mem_iff]
        simp
      generalize hst : (add_schedule st uid t).1 = st' at hlkup ⊢
      unfold add_schedule
      rw [get_user_found hlkup]
      simp [hmem']

/-- Witness for C5 at a concrete user and trigger. -/
theorem add_schedule_contract_witness :
    ((⟨8, 0⟩ : TimeHM) ∈ uW.schedules → add_schedule stW 1 ⟨8, 0⟩ = (stW, false)) ∧
    ((⟨8, 0⟩ : TimeHM) ∉ uW.schedules →
      (add_schedule stW 1 ⟨8, 0⟩).2 = true ∧
      alookup (add_schedule stW 1 ⟨8, 0⟩).1.users 1 =
        some { uW with schedules := sortTimes (uW.schedules ++ [⟨8, 0⟩]) } ∧
      List.count ⟨8, 0⟩ (sortTimes (uW.schedules ++ [⟨8, 0⟩])) = 1 ∧
      List.Sorted timeLE (sortTimes (uW.schedules ++ [⟨8, 0⟩])) ∧
      add_schedule (add_schedule stW 1 ⟨8, 0⟩).1 1 ⟨8, 0⟩ =
        ((add_schedule stW 1 ⟨8, 0⟩).1, false)) :=
  add_schedule_contract (by rfl)

/-- Claim C6: after the cleanup pass runs with an observed current date,
a stored key built from a well-formed (user, date, trigger) is retained
exactly when its embedded date equals that observed date — keys with a
different embedded date are removed, keys with the same date stay. -/
theorem cleanup_purges_other_dates {cur : Date} {uid : Nat} {d : Date} {t : TimeHM}
    (hcur : wfDate cur) (hd : wfDate d) (ht : wfTime t) (ks : List (List Nat)) :
    keyCodes uid d t ∈ cleanup cur ks ↔ keyCodes uid d t ∈ ks ∧ d = cur :=
  mem_cleanup_iff hcur hd ht ks

/-- Witness for C6: on a concrete tracker, the stale key is removed and the
current-date key is retained. -/
theorem cleanup_purges_other_dates_witness :
    (keyCodes 7 dW ⟨9, 0⟩ ∈ cleanup dW2 [keyCodes 7 dW ⟨9, 0⟩] ↔
      keyCodes 7 dW ⟨9, 0⟩ ∈ [keyCodes 7 dW ⟨9, 0⟩] ∧ dW = dW2) ∧
    (keyCodes 7 dW2 ⟨9, 0⟩ ∈ cleanup dW2 [keyCodes 7 dW2 ⟨9, 0⟩] ↔
      keyCodes 7 dW2 ⟨9, 0⟩ ∈ [keyCodes 7 dW2 ⟨9, 0⟩] ∧ dW2 = dW2) :=
  ⟨cleanup_purges_other_dates (by decide) (by decide) (by decide) _,
   cleanup_purges_other_dates (by decide) (by decide) (by decide) _⟩

/-- Claim C8: starting the schedule-setup dialog for a registered user whose
profile has `has_location = false` aborts immediately back to idle with the
location-error message, creating no conversation session and performing no
registry mutation. -/
theorem setup_no_location_aborts {st : DataStorage} {uid : Nat} {u : UserData}
    (hu : alookup st.users uid = some u) (hl : u.has_location = false)
    (prevSel : Option HourRange) :
    setup_notifications st uid prevSel = (.idle, st, [.needLocation]) := by
  unfold setup_notifications
  rw [get_user_found hu]
  simp [hl]

/-- Witness for C8 at a concrete locationless user. -/
theorem setup_no_location_aborts_witness :
    setup_notifications stNoLoc 2 none = (.idle, stNoLoc, [.needLocation]) :=
  setup_no_location_aborts (by rfl) (by rfl) none

/-- Claim C9: the cancel input sent from any active state of the
schedule-setup dialog — every active state is `setting sess` for some
session, covering range selection, time selection and the continue prompt —
ends the dialog back to idle with zero mutation of the registry state. -/
theorem cancel_returns_idle_unchanged (st : DataStorage) (uid : Nat) (sess : Session) :
    dialogStep st uid sess cancelText = (.idle, st, [.cancelled]) := by
  have h1 : matchesAnyMark cancelText clockMarks = false := by decide
  have h2 : matchesAnyMark cancelText contMarks = false := by decide
  unfold dialogStep save_notification_time
  simp [h1, h2]

/-- Witness for C9 at a concrete state. -/
theorem cancel_returns_idle_unchanged_witness :
    dialogStep stW 1 sessW cancelText = (.idle, stW, [.cancelled]) :=
  cancel_returns_idle_unchanged stW 1 sessW

/-- Claim C4 counterexample: in the time-selection step with the 00-03 band
chosen, the free-text input z 10:07 has minute 7 outside (0, 15, 30, 45)
and hour 10 outside the chosen band, yet the handler accepts it: the user's
schedule set gains 10:07 — it is not left unchanged — and the dialog moves
to the continue prompt rather than re-entering range selection. -/
theorem save_time_off_grid_accepted :
    (7 : Nat) ∉ [0, 15, 30, 45] ∧
    sessBand0.selectedRange.map (fun r => (r.startH, r.endH)) = some (0, 3) ∧
    ¬((10 : Nat) ≤ 3) ∧
    save_notification_time stEmpty 1 sessBand0 inpTenOhSeven =
      (.setting sessBand0,
       { stEmpty with users := aupdate stEmpty.users 1 ({ uEmpty with schedules := [⟨10, 7⟩] }) },
       [.saved]) ∧
    (save_notification_time stEmpty 1 sessBand0 inpTenOhSeven).2.1 ≠ stEmpty := by
  refine ⟨by decide, by decide, by decide, by decide, by decide⟩

/-- Claim C4 (amended): for a user in the registry with a location, the
time-selection handler rejects — leaving the registry unchanged and
re-entering range selection after the format-error message — exactly those
non-cancel, non-back inputs that fail to parse as `word H:M` with
0 ≤ H ≤ 23 and 0 ≤ M ≤ 59; every parseable in-range time is accepted and
handed to `add_schedule`, regardless of the 15-minute grid or of the
previously chosen band. -/
theorem save_time_validation {st : DataStorage} {uid : Nat} {u : UserData}
    (hu : alookup st.users uid = some u) (hl : u.has_location = true)
    (sess : Session) (text : List Nat)
    (hc : text ≠ cancelText) (hb : text ≠ backText) :
    (parseTimeText text = none →
      save_notification_time st uid sess text =
        (.setting ⟨defaultHourRanges, sess.selectedRange⟩, st,
         [.invalidFormat, .rangePrompt])) ∧
    (∀ h m, parseTimeText text = some (h, m) →
      save_notification_time st uid sess text =
        (.setting sess, (add_schedule st uid ⟨h, m⟩).1,
         [if (add_schedule st uid ⟨h, m⟩).2 then Msg.saved else Msg.duplicateTime])) := by
  constructor
  · intro hp
    simp only [save_notification_time, if_neg hc, if_neg hb, hp]
    unfold setup_notifications
    rw [get_user_found hu]
    simp [hl]
  · intro h m hp
    simp only [save_notification_time, if_neg hc, if_neg hb, hp]
    by_cases hr : (add_schedule st uid ⟨h, m⟩).2 <;> simp [hr]

/-- Witness for the amended C4 at a malformed concrete input. -/
theorem save_time_validation_witness :
    (parseTimeText inpNinetyNine = none →
      save_notification_time stEmpty 1 sessBand0 inpNinetyNine =
        (.setting ⟨defaultHourRanges, sessBand0.selectedRange⟩, stEmpty,
         [.invalidFormat, .rangePrompt])) ∧
    (∀ h m, parseTimeText inpNinetyNine = some (h, m) →
      save_notification_time stEmpty 1 sessBand0 inpNinetyNine =
        (.setting sessBand0, (add_schedule stEmpty 1 ⟨h, m⟩).1,
         [if (add_schedule stEmpty 1 ⟨h, m⟩).2 then Msg.saved else Msg.duplicateTime])) :=
  save_time_validation (by rfl) (by rfl) sessBand0 inpNinetyNine (by decide) (by decide)

/-- Auxiliary for C3: the run-level at-most-once bound, by induction over
the tick list. -/
theorem runTicks_count_le_one {uid : Nat} {D : Date} {t : TimeHM}
    (hD : wfDate D) (ht : wfTime t) :
    ∀ (tks : List SchedTick) (st : DataStorage),
      (∀ p ∈ st.users, ∀ t' ∈ p.2.schedules, wfTime t') →
      (∀ tk ∈ tks, wfDate tk.utcDate) →
      (tks.map (fun tk => (tk.utcDate, tk.utcTime))).Nodup →
      countKey (keyCodes uid D t) (runTicks st tks).2 ≤ 1 := by
  intro tks
  induction tks with
  | nil => intro st _ _ _; simp [runTicks, countKey_nil]
  | cons tk tks ih =>
    intro st hwfS hwfT hnodup
    rw [runTicks_events, countKey_append]
    have hmap : (List.map (fun tk => (tk.utcDate, tk.utcTime)) (tk :: tks)) =
        (tk.utcDate, tk.utcTime) :: List.map (fun tk => (tk.utcDate, tk.utcTime)) tks := rfl
    rw [hmap] at hnodup
    have hnodup' := List.nodup_cons.mp hnodup
    by_cases hpos : 0 < countKey (keyCodes uid D t) (notifTick st tk).2
    · obtain ⟨ev, hev, hkey⟩ := countKey_pos_iff.mp hpos
      obtain ⟨hd, htm, _⟩ :=
        notifTick_key_ev hwfS (hwfT tk (List.mem_cons_self _ _)) hD ht hev hkey
      have hz : countKey (keyCodes uid D t) (runTicks (notifTick st tk).1 tks).2 = 0 := by
        apply runTicks_count_zero hD ht
        · rw [notifTick_users]
          exact hwfS
        · intro tk' h'
          exact hwfT tk' (List.mem_cons_of_mem _ h')
        · rintro tk' h' ⟨hd', htm'⟩
          apply hnodup'.1
          have hmem' : (tk'.utcDate, tk'.utcTime) ∈
              tks.map (fun tk => (tk.utcDate, tk.utcTime)) :=
            List.mem_map_of_mem _ h'
          rw [hd', htm'] at hmem'
          rw [hd, htm]
          exact hmem'
      have hle := notifTick_count_le_one st tk (keyCodes uid D t)
      omega
    · have h0 : countKey (keyCodes uid D t) (notifTick st tk).2 = 0 := by omega
      have h2 := ih (notifTick st tk).1
        (by rw [notifTick_users]; exact hwfS)
        (fun tk' h' => hwfT tk' (List.mem_cons_of_mem _ h'))
        hnodup'.2
      omega

/-- Claim C3: across a run of scheduler ticks whose (UTC date, truncated UTC
minute) pairs are pairwise distinct — the loop sleeps 60 seconds between
ticks, so no two ticks of the real loop observe the same UTC minute — at
most one notification is dispatched per (user, calendar date, trigger);
moreover once the tracker holds such a key, a tick dispatches nothing for
it. -/
theorem at_most_once_per_day {st : DataStorage} {tks : List SchedTick} {uid : Nat}
    {D : Date} {t : TimeHM}
    (hwfS : ∀ p ∈ st.users, ∀ t' ∈ p.2.schedules, wfTime t')
    (hwfT : ∀ tk ∈ tks, wfDate tk.utcDate)
    (hnodup : (tks.map (fun tk => (tk.utcDate, tk.utcTime))).Nodup)
    (hD : wfDate D) (ht : wfTime t) :
    countKey (keyCodes uid D t) (runTicks st tks).2 ≤ 1 ∧
    (∀ st' tk, keyCodes uid D t ∈ st'.sent_notifications →
      countKey (keyCodes uid D t) (notifTick st' tk).2 = 0) :=
  ⟨runTicks_count_le_one hD ht tks st hwfS hwfT hnodup,
   fun _ _ hk => notifTick_recorded_no_dispatch hk⟩

/-- Witness for C3 on a concrete two-tick run. -/
theorem at_most_once_per_day_witness :
    countKey (keyCodes 7 dW ⟨9, 0⟩) (runTicks stNine [tkW, tkW2]).2 ≤ 1 ∧
    (∀ st' tk, keyCodes 7 dW ⟨9, 0⟩ ∈ st'.sent_notifications →
      countKey (keyCodes 7 dW ⟨9, 0⟩) (notifTick st' tk).2 = 0) :=
  at_most_once_per_day (by decide) (by decide) (by decide) (by decide) (by decide)

/-- Claim C10: when a trigger matches during a tick and its dedup key is
unfired, the tick emits one dispatch attempt whose delivery flag is exactly
the conjunction of the fetch and transport outcomes of `_send_notification`
(both of whose failures are swallowed), and the key is marked regardless of
those outcomes — surviving that tick's cleanup when the machine-local date
agrees with the UTC date — so any later tick dispatches nothing for this
key: a failed delivery still consumes the (user, date, trigger) key and is
never retried that day. -/
theorem failed_send_consumes_key {st : DataStorage} {tk : SchedTick} {uid : Nat}
    {u : UserData} {t : TimeHM}
    (hwfS : ∀ p ∈ st.users, ∀ t' ∈ p.2.schedules, wfTime t')
    (hwfD : wfDate tk.utcDate) (ht : wfTime t)
    (hmem : (uid, u) ∈ st.users) (hloc : u.has_location = true)
    (hts : t ∈ u.schedules) (hm : tk.utcTime = t)
    (hk : keyCodes uid tk.utcDate t ∉ st.sent_notifications)
    (hlocal : tk.localDate = tk.utcDate) :
    (∃ ev ∈ (notifTick st tk).2,
       ev = ⟨uid, keyCodes uid tk.utcDate t,
             sendNotification (tk.env uid).1 (tk.env uid).2⟩) ∧
    keyCodes uid tk.utcDate t ∈ (notifTick st tk).1.sent_notifications ∧
    (∀ tk₂, countKey (keyCodes uid tk.utcDate t) (notifTick (notifTick st tk).1 tk₂).2 = 0) := by
  have hfire : ∃ ev ∈ (notifTick st tk).2, ev.key = keyCodes uid tk.utcDate t := by
    rw [notifTick_events]
    exact procUsers_fires hmem hloc hts hm hk
  obtain ⟨ev, hev, hkey⟩ := hfire
  obtain ⟨_, _, hshape⟩ := notifTick_key_ev hwfS hwfD hwfD ht hev hkey
  have hmark : keyCodes uid tk.utcDate t ∈ (notifTick st tk).1.sent_notifications := by
    show keyCodes uid tk.utcDate t ∈ cleanup tk.localDate
      (procUsers tk.utcDate tk.utcTime tk.env st.sent_notifications st.users).1
    unfold cleanup
    rw [List.mem_filter]
    refine ⟨procUsers_emitted_mem ⟨ev, ?_, hkey⟩, ?_⟩
    · rw [← notifTick_events]
      exact hev
    · rw [hlocal]
      exact hasSub_iff.mpr (dateCodes_sub_keyCodes uid tk.utcDate t)
  exact ⟨⟨ev, hev, hshape⟩, hmark, fun tk₂ => notifTick_recorded_no_dispatch hmark⟩

/-- Witness for C10 on a concrete tick whose fetch and transport both fail:
the key is still consumed. -/
theorem failed_send_consumes_key_witness :
    (∃ ev ∈ (notifTick stNine tkFail).2,
       ev = ⟨7, keyCodes 7 tkFail.utcDate ⟨9, 0⟩,
             sendNotification (tkFail.env 7).1 (tkFail.env 7).2⟩) ∧
    keyCodes 7 tkFail.utcDate ⟨9, 0⟩ ∈ (notifTick stNine tkFail).1.sent_notifications ∧
    (∀ tk₂, countKey (keyCodes 7 tkFail.utcDate ⟨9, 0⟩)
      (notifTick (notifTick stNine tkFail).1 tk₂).2 = 0) :=
  @failed_send_consumes_key stNine tkFail 7 uNine ⟨9, 0⟩ (by decide) (by decide) (by decide)
    (by decide) (by decide) (by decide) (by rfl) (by decide) (by rfl)

/-- Claim C1 (spec-modelled): the timezone-aware per-tick matching computes
the local time as the minute-truncated UTC time plus the profile's offset in
hours and fires a trigger exactly when that local time of day equals the
trigger time; in particular a profile with offset +5 and a 09:00 trigger
fires at a tick at UTC 04:00:30 of day 20000, whose local calendar day is
still day 20000. -/
theorem local_time_matching :
    (∀ (p : SpecProfile) (utc : Int) (t : TimeHM),
      t ∈ specTickFires p utc ↔
        p.hasLocation = true ∧ t ∈ p.schedules ∧
          specLocalTOD utc p.tzOffset = trigSecs t) ∧
    specTickFires { uid := 1, hasLocation := true, tzOffset := 5, schedules := [⟨9, 0⟩] }
        (20000 * 86400 + 4 * 3600 + 30) = [⟨9, 0⟩] ∧
    specLocalDay (20000 * 86400 + 4 * 3600 + 30) 5 = 20000 := by
  refine ⟨?_, by decide, by decide⟩
  intro p utc t
  unfold specTickFires
  by_cases hp : p.hasLocation <;> simp [hp, List.mem_filter]

/-- Witness for C1: the concrete +5 offset instance. -/
theorem local_time_matching_witness :
    specTickFires { uid := 1, hasLocation := true, tzOffset := 5, schedules := [⟨9, 0⟩] }
        (20000 * 86400 + 4 * 3600 + 30) = [⟨9, 0⟩] ∧
    specLocalDay (20000 * 86400 + 4 * 3600 + 30) 5 = 20000 :=
  local_time_matching.2

/-- Claim C2 (spec-modelled): with a cache entry for the coordinate bucket
younger than the 10-minute TTL, `getOrFetch` returns the cached payload with
zero provider calls and an unchanged cache; once the TTL has expired, it
makes exactly one provider call and on success stores the fresh result. -/
theorem cache_ttl_contract {cache : List ((Int × Int) × (Nat × Nat))} {lat lon : Int}
    {now t p : Nat} {prov : Option Nat}
    (hentry : cacheLookup cache (bucketOf lat lon) = some (t, p)) :
    (now - t < WEATHER_CACHE_TTL_SECS →
      getOrFetch now prov cache lat lon = (some p, cache, 0)) ∧
    (WEATHER_CACHE_TTL_SECS ≤ now - t →
      (getOrFetch now prov cache lat lon).2.2 = 1 ∧
      (∀ q, prov = some q →
        getOrFetch now prov cache lat lon =
          (some q, cacheInsert (bucketOf lat lon) (now, q) cache, 1))) := by
  constructor
  · intro hfresh
    simp only [getOrFetch]
    rw [hentry]
    simp [hfresh]
  · intro hexp
    have hnot : ¬(now - t < WEATHER_CACHE_TTL_SECS) := by omega
    constructor
    · simp only [getOrFetch]
      rw [hentry]
      simp only [if_neg hnot]
      cases prov <;> simp
    · intro q hq
      subst hq
      simp only [getOrFetch]
      rw [hentry]
      simp [hnot]

/-- Witness for C2 on a concrete expired entry. -/
theorem cache_ttl_contract_witness :
    ((800 : Nat) - 100 < WEATHER_CACHE_TTL_SECS →
      getOrFetch 800 (some 43) cacheW 0 0 = (some 42, cacheW, 0)) ∧
    (WEATHER_CACHE_TTL_SECS ≤ 800 - 100 →
      (getOrFetch 800 (some 43) cacheW 0 0).2.2 = 1 ∧
      (∀ q, (some 43 : Option Nat) = some q →
        getOrFetch 800 (some 43) cacheW 0 0 =
          (some q, cacheInsert (bucketOf 0 0) (800, q) cacheW, 1))) :=
  cache_ttl_contract (by rfl)

/-- Claim C7 (spec-modelled): profiles carry a whole-hour timezone offset
field defaulting to 0; `setTimezone` validates the offset against the range
[-12, 14], leaves the registry unchanged and reports failure on invalid
input, and on valid input stores the offset, which then lies in range. -/
theorem timezone_field_contract (reg : List (Nat × SpecProfile)) (uid : Nat) (off : Int) :
    (specDefaultProfile uid).tzOffset = 0 ∧
    (¬(-12 ≤ off ∧ off ≤ 14) → specSetTimezone reg uid off = (reg, false)) ∧
    ((-12 ≤ off ∧ off ≤ 14) →
      (specSetTimezone reg uid off).2 = true ∧
      ∃ p, alookup (specSetTimezone reg uid off).1 uid = some p ∧
        p.tzOffset = off ∧ -12 ≤ p.tzOffset ∧ p.tzOffset ≤ 14) := by
  refine ⟨rfl, ?_, ?_⟩
  · intro hbad
    unfold specSetTimezone
    rw [if_neg hbad]
  · intro hok
    unfold specSetTimezone
    rw [if_pos hok]
    cases hl : alookup reg uid with
    | some p =>
      exact ⟨rfl, { p with tzOffset := off }, alookup_aupdate_self _ hl, rfl, hok.1, hok.2⟩
    | none =>
      exact ⟨rfl, _, alookup_append_absent _ hl, rfl, hok.1, hok.2⟩

/-- Witness for C7 at a concrete registry and offset. -/
theorem timezone_field_contract_witness :
    (specDefaultProfile 5).tzOffset = 0 ∧
    (¬(-12 ≤ (3 : Int) ∧ (3 : Int) ≤ 14) → specSetTimezone [] 5 3 = ([], false)) ∧
    ((-12 ≤ (3 : Int) ∧ (3 : Int) ≤ 14) →
      (specSetTimezone [] 5 3).2 = true ∧
      ∃ p, alookup (specSetTimezone [] 5 3).1 5 = some p ∧
        p.tzOffset = 3 ∧ -12 ≤ p.tzOffset ∧ p.tzOffset ≤ 14) :=
  timezone_field_contract [] 5 3

end Bot
